import Mathlib

/-!
Shallow embedding of `Source/JavaScriptCore/profiler/ProfilerDatabase.cpp`.

The profiler database stores three append-only collections (bytecodes,
compilations, events) together with two hash-map indices keyed on code-block
handles, and a process-wide at-exit registry implemented as an intrusive
singly-linked list of databases.

Modelling decisions:
  * `CodeBlock*` handles are modelled as `Nat`; the external
    `CodeBlock::baselineVersion()` canonicalization is an abstract function
    `baseline : Nat → Nat` passed as a parameter.
  * `WTF::HashMap` is modelled as an association list with first-match
    lookup, replace-or-append `set`, and key removal (`removeA`).
  * A `Bytecodes*` pointer into the append-only `m_bytecodes` segmented
    vector is modelled by the stable position of the entry in the list;
    likewise a `Compilation` reference is the position of the record in
    `m_compilations` at the time it was appended.
  * `currentTime()` is an abstract timestamp supplied as a parameter.
-/

namespace ProfilerDatabase

/-- Association-list lookup, modelling `HashMap::find` / `HashMap::get`. -/
def lookupA {κ α : Type} [DecidableEq κ] : List (κ × α) → κ → Option α
  | [], _ => none
  | (k, v) :: rest, q => if k = q then some v else lookupA rest q

/-- Association-list insert-or-replace, modelling `HashMap::set` (and
`HashMap::add` on a key known to be absent). -/
def setA {κ α : Type} [DecidableEq κ] : List (κ × α) → κ → α → List (κ × α)
  | [], k, v => [(k, v)]
  | (k0, v0) :: rest, k, v =>
    if k0 = k then (k, v) :: rest else (k0, v0) :: setA rest k v

/-- Association-list key removal, modelling `HashMap::remove`. -/
def removeA {κ α : Type} [DecidableEq κ] (m : List (κ × α)) (k : κ) : List (κ × α) :=
  m.filter (fun p => decide (p.1 ≠ k))

/-- One `Profiler::Bytecodes` entry: the store-local sequential index assigned
at creation (`Bytecodes(m_bytecodes.size(), codeBlock)`) and the canonical
code-block handle it was created for. -/
structure Bytecodes where
  index : Nat
  codeBlock : Nat
deriving DecidableEq

instance : Inhabited Bytecodes := ⟨⟨0, 0⟩⟩

/-- One `Profiler::Event` entry: timestamp, the referenced bytecodes entry
(position in `m_bytecodes`), the optional referenced compilation (position in
`m_compilations`), summary tag and detail string. -/
structure Event where
  time : Nat
  bytecodes : Nat
  compilation : Option Nat
  summary : String
  detail : String
deriving DecidableEq

/-- The state of one `Profiler::Database`: the three append-only collections,
the two lookup maps, and the at-exit bookkeeping fields. -/
structure Database where
  bytecodes : List Bytecodes := []
  compilations : List Nat := []
  events : List Event := []
  bytecodesMap : List (Nat × Nat) := []
  compilationMap : List (Nat × Nat) := []
  shouldSaveAtExit : Bool := false
  atExitSaveFilename : String := ""
deriving DecidableEq

/-- `Database::ensureBytecodesFor(const LockHolder&, CodeBlock*)`: canonicalize
the handle via `baselineVersion`, return the indexed entry if present,
otherwise append a new `Bytecodes(m_bytecodes.size(), codeBlock)` and index it.
Returns the updated database and the position of the returned entry. -/
def ensureBytecodesFor (baseline : Nat → Nat) (db : Database) (codeBlock : Nat) :
    Database × Nat :=
  let cb := baseline codeBlock
  match lookupA db.bytecodesMap cb with
  | some result => (db, result)
  | none =>
    let result := db.bytecodes.length
    ({ db with
        bytecodes := db.bytecodes ++ [⟨result, cb⟩],
        bytecodesMap := setA db.bytecodesMap cb result }, result)

/-- `Database::notifyDestruction(CodeBlock*)`: remove the raw handle from both
maps; the collections are untouched. -/
def notifyDestruction (db : Database) (codeBlock : Nat) : Database :=
  { db with
      bytecodesMap := removeA db.bytecodesMap codeBlock,
      compilationMap := removeA db.compilationMap codeBlock }

/-- `Database::addCompilation(CodeBlock*, PassRefPtr<Compilation>)`: append the
compilation to `m_compilations` and set it as the latest compilation for the
raw handle. The record is identified by its position in `m_compilations`. -/
def addCompilation (db : Database) (codeBlock : Nat) (compilation : Nat) : Database :=
  { db with
      compilations := db.compilations ++ [compilation],
      compilationMap := setA db.compilationMap codeBlock db.compilations.length }

/-- `Database::logEvent(CodeBlock*, const char*, const CString&)`: resolve the
bytecodes entry via `ensureBytecodesFor`, look up the latest compilation for
the raw handle, and append one `Event` with the current timestamp. -/
def logEvent (baseline : Nat → Nat) (db : Database) (codeBlock : Nat)
    (summary detail : String) (time : Nat) : Database :=
  let resolved := ensureBytecodesFor baseline db codeBlock
  let compilation := lookupA resolved.1.compilationMap codeBlock
  { resolved.1 with
      events := resolved.1.events ++ [⟨time, resolved.2, compilation, summary, detail⟩] }

/-- A sequence of `ensureBytecodesFor` calls, returning the final database and
the entry position returned by each call, in call order. -/
def ensureList (baseline : Nat → Nat) (db : Database) : List Nat → Database × List Nat
  | [] => (db, [])
  | h :: rest =>
    let r := ensureBytecodesFor baseline db h
    let rr := ensureList baseline r.1 rest
    (rr.1, r.2 :: rr.2)

/-- A sequence of `addCompilation` calls, one per (handle, record) pair. -/
def addCompilationList (db : Database) : List (Nat × Nat) → Database
  | [] => db
  | p :: rest => addCompilationList (addCompilation db p.1 p.2) rest

/-- The store invariant: both lookup maps point into their ordered
collections, handles are unique keys in each map, and the entry at position
`i` of the ordered bytecodes collection carries sequential index `i`. -/
def Inv (db : Database) : Prop :=
  (∀ p ∈ db.bytecodesMap, p.2 < db.bytecodes.length) ∧
  (∀ p ∈ db.compilationMap, p.2 < db.compilations.length) ∧
  (db.bytecodesMap.map Prod.fst).Nodup ∧
  (db.compilationMap.map Prod.fst).Nodup ∧
  (∀ i, i < db.bytecodes.length → (db.bytecodes.getD i default).index = i)

/-- Every bytecodes-map entry points to an entry created for that same
canonical handle. -/
def KeyConsistent (db : Database) : Prop :=
  ∀ p ∈ db.bytecodesMap, (db.bytecodes.getD p.2 default).codeBlock = p.1

instance (db : Database) : Decidable (Inv db) := by
  unfold Inv
  infer_instance

instance (db : Database) : Decidable (KeyConsistent db) := by
  unfold KeyConsistent
  infer_instance

/-! ### Serialization (`Database::toJS`, `Database::toJSON`, `Database::save`) -/

/-- A JavaScript value as built by `toJS`: the document tree handed to the
JSON encoder. Object fields are kept in `putDirect` order. -/
inductive JSValue : Type where
  | jnum : Nat → JSValue
  | jstr : String → JSValue
  | jarr : List JSValue → JSValue
  | jobj : List (String × JSValue) → JSValue

/-- The array built by the `for (i = 0; i < size; ++i) putDirectIndex(i, f i)`
loops in `Database::toJS`. -/
def buildArray (f : Nat → JSValue) (n : Nat) : JSValue :=
  JSValue.jarr ((List.range n).map f)

/-- `Database::toJS(ExecState*)`: an empty object receives the three fields
`bytecodes`, `compilations`, `events` in that order, each an array with one
element per collection entry, built in position order. The per-entry
serializers (`Bytecodes::toJS`, `Compilation::toJS`, `Event::toJS`) live in
other files of the repository and are abstract parameters here. -/
def toJS (serB : Bytecodes → JSValue) (serC : Nat → JSValue) (serE : Event → JSValue)
    (db : Database) : JSValue :=
  JSValue.jobj
    ([] ++ [("bytecodes", buildArray (fun i => serB (db.bytecodes.getD i default)) db.bytecodes.length)]
        ++ [("compilations", buildArray (fun i => serC (db.compilations.getD i 0)) db.compilations.length)]
        ++ [("events", buildArray (fun i => serE (db.events.getD i ⟨0, 0, none, "", ""⟩)) db.events.length)])

/-- Modelled from the spec: the external JSON/text encoder (`JSONStringify`
from `JSONObject.h`, not part of this repository's source under `src/`);
encodes the document tree as JSON text. -/
def jsonStringify : JSValue → String
  | .jnum n => toString n
  | .jstr s => "\x22" ++ s ++ "\x22"
  | .jarr xs =>
    "[" ++ String.intercalate "," (xs.attach.map (fun x => jsonStringify x.1)) ++ "]"
  | .jobj fs =>
    "\x7b" ++
      String.intercalate ","
        (fs.attach.map (fun f => "\x22" ++ f.1.1 ++ "\x22:" ++ jsonStringify f.1.2)) ++
      "\x7d"
decreasing_by
· have h := List.sizeOf_lt_of_mem x.2
  simp
  omega
· have h1 := List.sizeOf_lt_of_mem f.2
  have h2 : sizeOf f.1.2 < sizeOf f.1 := by
    obtain ⟨⟨k, v⟩, hm⟩ := f
    simp
  simp
  omega

/-- `Database::toJSON()`: JSON-stringify the document built by `toJS`. -/
def toJSON (serB : Bytecodes → JSValue) (serC : Nat → JSValue) (serE : Event → JSValue)
    (db : Database) : String :=
  jsonStringify (toJS serB serC serE db)

/-- The file system visible to `Database::save`: the files by name, plus the
open behaviour (`FilePrintStream::open` failing or succeeding per path). -/
structure FileSystem where
  files : List (String × String)
  openFails : String → Bool

/-- `Database::save(const char*)`: open the file for writing; on failure
return `false` having touched nothing; on success write the full JSON text
and return `true`. The result records the returned boolean, the file system
after the call, the database after the call (`save` is `const`), and the
list of open attempts made (exactly one; no retry). -/
def save (serB : Bytecodes → JSValue) (serC : Nat → JSValue) (serE : Event → JSValue)
    (fs : FileSystem) (db : Database) (filename : String) :
    Bool × FileSystem × Database × List String :=
  if fs.openFails filename then
    (false, fs, db, [filename])
  else
    (true, { fs with files := setA fs.files filename (toJSON serB serC serE db) }, db,
      [filename])

/-! ### The at-exit registry

The intrusive singly-linked list threaded through `m_nextRegisteredDatabase`
with head `firstDatabase` is modelled as the list `registry` of database
identities, head first; the live databases are an association list from
identity to `Database` state. `flushes` records every `performAtExitSave`
call (database identity and the filename saved to), in call order. -/

structure RegState where
  databases : List (Nat × Database)
  registry : List Nat
  didRegisterAtExit : Nat
  flushes : List (Nat × String)

/-- `Database::addDatabaseToAtExit()`: bump the one-shot counter (installing
the `atexit` hook when it first reaches 1) and push this database onto the
head of the intrusive list. -/
def addDatabaseToAtExit (s : RegState) (ident : Nat) : RegState :=
  { s with
      didRegisterAtExit := s.didRegisterAtExit + 1,
      registry := ident :: s.registry }

/-- `Database::registerToSaveAtExit(const char*)`: record the filename; if
already flagged, return; otherwise add to the at-exit list and set the flag. -/
def registerToSaveAtExit (s : RegState) (ident : Nat) (filename : String) : RegState :=
  match lookupA s.databases ident with
  | none => s
  | some db =>
    if db.shouldSaveAtExit then
      { s with
          databases := setA s.databases ident { db with atExitSaveFilename := filename } }
    else
      let s1 := { s with
        databases := setA s.databases ident
          { db with atExitSaveFilename := filename, shouldSaveAtExit := true } }
      addDatabaseToAtExit s1 ident

/-- Clear `m_shouldSaveAtExit` on the database with the given identity. -/
def clearFlag (dbs : List (Nat × Database)) (ident : Nat) : List (Nat × Database) :=
  dbs.map (fun p =>
    if p.1 = ident then (p.1, { p.2 with shouldSaveAtExit := false }) else p)

/-- `Database::removeDatabaseFromAtExit()`: scan the intrusive list; if this
database is linked, unlink it and clear its flag; otherwise do nothing. -/
def removeDatabaseFromAtExit (s : RegState) (ident : Nat) : RegState :=
  if ident ∈ s.registry then
    { s with
        registry := s.registry.erase ident,
        databases := clearFlag s.databases ident }
  else s

/-- `Database::performAtExitSave()`: save to the recorded filename; the model
records the flush (`save`'s own success or failure is immaterial here). -/
def performAtExitSave (s : RegState) (ident : Nat) : RegState :=
  match lookupA s.databases ident with
  | none => s
  | some db => { s with flushes := s.flushes ++ [(ident, db.atExitSaveFilename)] }

/-- `Database::removeFirstAtExitDatabase()`: pop the list's head, clearing its
flag; `none` when the list is empty. -/
def removeFirstAtExitDatabase (s : RegState) : Option Nat × RegState :=
  match s.registry with
  | [] => (none, s)
  | ident :: rest =>
    (some ident, { s with registry := rest, databases := clearFlag s.databases ident })

/-- The loop body of `Database::atExitCallback()`, with explicit fuel. -/
def atExitLoop : RegState → Nat → RegState
  | s, 0 => s
  | s, Nat.succ n =>
    match removeFirstAtExitDatabase s with
    | (none, s1) => s1
    | (some ident, s1) => atExitLoop (performAtExitSave s1 ident) n

/-- `Database::atExitCallback()`: repeatedly pop and flush the head until the
list is empty; the list length bounds the iteration count. -/
def atExitCallback (s : RegState) : RegState :=
  atExitLoop s s.registry.length

/-- `Database::~Database()`: if still flagged, remove from the at-exit list
and perform the save; then the database ceases to exist. -/
def destructDatabase (s : RegState) (ident : Nat) : RegState :=
  match lookupA s.databases ident with
  | none => s
  | some db =>
    let s1 :=
      if db.shouldSaveAtExit then
        performAtExitSave (removeDatabaseFromAtExit s ident) ident
      else s
    { s1 with databases := removeA s1.databases ident }

/-- A registry-level command: register a database for shutdown save, destroy
a database, or terminate the process (running the `atexit` hook). -/
inductive Cmd : Type where
  | register : Nat → String → Cmd
  | destruct : Nat → Cmd
  | procExit : Cmd

def step (s : RegState) : Cmd → RegState
  | .register ident p => registerToSaveAtExit s ident p
  | .destruct ident => destructDatabase s ident
  | .procExit => atExitCallback s

def run (s : RegState) : List Cmd → RegState
  | [] => s
  | c :: cs => run (step s c) cs

/-- The initial state: the given databases freshly constructed
(`m_shouldSaveAtExit(false)`), an empty at-exit list, no flushes. -/
def initState (idents : List Nat) : RegState :=
  { databases := idents.map (fun i => (i, {})),
    registry := [],
    didRegisterAtExit := 0,
    flushes := [] }

/-- A trace is valid when every `register`/`destruct` names a database alive
at that point and the process exit is the final command. -/
def validFrom (s : RegState) : List Cmd → Bool
  | [] => false
  | .procExit :: rest => rest.isEmpty
  | .register ident p :: rest =>
    (lookupA s.databases ident).isSome && validFrom (registerToSaveAtExit s ident p) rest
  | .destruct ident :: rest =>
    (lookupA s.databases ident).isSome && validFrom (destructDatabase s ident) rest

/-- The filename most recently recorded for a database by a `register`
command, threading an accumulator. -/
def lastRegPathFrom (ident : Nat) (acc : Option String) : List Cmd → Option String
  | [] => acc
  | .register i p :: rest => lastRegPathFrom ident (if i = ident then some p else acc) rest
  | _ :: rest => lastRegPathFrom ident acc rest

def lastRegPath (cmds : List Cmd) (ident : Nat) : Option String :=
  lastRegPathFrom ident none cmds

/-- The filenames this database was flushed to, in flush order. -/
def flushPathsFor (fl : List (Nat × String)) (ident : Nat) : List String :=
  (fl.filter (fun f => f.1 == ident)).map (fun f => f.2)

/-- The at-exit filename currently recorded on a live database. -/
def dbPath (dbs : List (Nat × Database)) (ident : Nat) : String :=
  match lookupA dbs ident with
  | some db => db.atExitSaveFilename
  | none => ""

/-! ### Association-list lemmas -/

theorem lookupA_setA {κ α : Type} [DecidableEq κ] (m : List (κ × α)) (k q : κ) (v : α) :
    lookupA (setA m k v) q = if k = q then some v else lookupA m q := by
  induction m with
  | nil => simp [setA, lookupA]
  | cons p rest ih =>
    obtain ⟨k0, v0⟩ := p
    by_cases h0 : k0 = k
    · subst h0
      by_cases hq : k0 = q <;> simp [setA, lookupA, hq]
    · by_cases hq : k0 = q
      · subst hq
        have : ¬ k = k0 := fun h => h0 h.symm
        simp [setA, lookupA, h0, this]
      · simp [setA, lookupA, h0, hq, ih]

theorem lookupA_removeA {κ α : Type} [DecidableEq κ] (m : List (κ × α)) (k q : κ) :
    lookupA (removeA m k) q = if k = q then none else lookupA m q := by
  induction m with
  | nil => simp [removeA, lookupA]
  | cons p rest ih =>
    obtain ⟨k0, v0⟩ := p
    by_cases h0 : k0 = k
    · subst h0
      by_cases hq : k0 = q
      · subst hq
        simpa [removeA, lookupA] using ih
      · have : ¬ k0 = q := hq
        simpa [removeA, lookupA, this] using ih
    · by_cases hq : k0 = q
      · subst hq
        have : ¬ k = k0 := fun h => h0 h.symm
        simp [removeA, lookupA, h0, this]
      · simpa [removeA, lookupA, h0, hq] using ih

theorem mem_setA {κ α : Type} [DecidableEq κ] (m : List (κ × α)) (k : κ) (v : α)
    (p : κ × α) (hp : p ∈ setA m k v) : p = (k, v) ∨ p ∈ m := by
  induction m with
  | nil => simpa [setA] using hp
  | cons q rest ih =>
    by_cases h0 : q.1 = k
    · obtain ⟨k0, v0⟩ := q
      simp only [setA] at hp
      rw [if_pos h0] at hp
      rcases List.mem_cons.mp hp with h | h
      · exact Or.inl h
      · exact Or.inr (List.mem_cons_of_mem _ h)
    · obtain ⟨k0, v0⟩ := q
      simp only [setA] at hp
      rw [if_neg h0] at hp
      rcases List.mem_cons.mp hp with h | h
      · exact Or.inr (List.mem_cons.mpr (Or.inl h))
      · rcases ih h with h1 | h1
        · exact Or.inl h1
        · exact Or.inr (List.mem_cons_of_mem _ h1)

theorem mem_removeA {κ α : Type} [DecidableEq κ] (m : List (κ × α)) (k : κ)
    (p : κ × α) (hp : p ∈ removeA m k) : p ∈ m :=
  List.mem_of_mem_filter hp

theorem keys_setA {κ α : Type} [DecidableEq κ] (m : List (κ × α)) (k : κ) (v : α) :
    (setA m k v).map Prod.fst =
      if k ∈ m.map Prod.fst then m.map Prod.fst else m.map Prod.fst ++ [k] := by
  induction m with
  | nil => simp [setA]
  | cons p rest ih =>
    obtain ⟨k0, v0⟩ := p
    by_cases h0 : k0 = k
    · subst h0
      simp [setA]
    · have h0s : ¬ k = k0 := fun h => h0 h.symm
      by_cases hm : k ∈ rest.map Prod.fst <;>
        simp [setA, h0, h0s, hm, ih]

theorem nodup_keys_setA {κ α : Type} [DecidableEq κ] (m : List (κ × α)) (k : κ) (v : α)
    (h : (m.map Prod.fst).Nodup) : ((setA m k v).map Prod.fst).Nodup := by
  rw [keys_setA]
  by_cases hm : k ∈ m.map Prod.fst
  · simpa [hm] using h
  · simp only [hm, if_false]
    exact List.Nodup.append h (List.nodup_singleton k) (by simpa using hm)

theorem keys_removeA_sublist {κ α : Type} [DecidableEq κ] (m : List (κ × α)) (k : κ) :
    ((removeA m k).map Prod.fst).Sublist (m.map Prod.fst) :=
  List.Sublist.map Prod.fst (List.filter_sublist m)

theorem lookupA_map_const {κ α : Type} [DecidableEq κ] (l : List κ) (d : α) (q : κ)
    (v : α) (h : lookupA (l.map (fun i => (i, d))) q = some v) : v = d := by
  induction l with
  | nil => simp [lookupA] at h
  | cons x rest ih =>
    by_cases hx : x = q
    · simp [lookupA, hx] at h
      exact h.symm
    · simp [lookupA, hx] at h
      exact ih h

theorem clearFlag_cons (k0 : Nat) (db0 : Database) (rest : List (Nat × Database))
    (ident : Nat) :
    clearFlag ((k0, db0) :: rest) ident =
      (if k0 = ident then (k0, { db0 with shouldSaveAtExit := false }) else (k0, db0)) ::
        clearFlag rest ident := by
  simp only [clearFlag, List.map_cons]

theorem lookupA_clearFlag (dbs : List (Nat × Database)) (ident q : Nat) :
    lookupA (clearFlag dbs ident) q =
      (lookupA dbs q).map
        (fun db => if q = ident then { db with shouldSaveAtExit := false } else db) := by
  induction dbs with
  | nil => simp [clearFlag, lookupA]
  | cons p rest ih =>
    obtain ⟨k0, db0⟩ := p
    rw [clearFlag_cons]
    by_cases hi : k0 = ident
    · rw [if_pos hi]
      subst hi
      by_cases h0 : k0 = q
      · subst h0
        simp [lookupA]
      · simp [lookupA, h0, ih]
    · rw [if_neg hi]
      by_cases h0 : k0 = q
      · subst h0
        simp [lookupA, hi]
      · simp [lookupA, hi, h0, ih]

theorem filter_eq_of_nodup (l : List Nat) (a : Nat) (h : l.Nodup) :
    l.filter (fun x => x == a) = if a ∈ l then [a] else [] := by
  induction l with
  | nil => simp
  | cons x rest ih =>
    rcases List.nodup_cons.mp h with ⟨hx, hrest⟩
    by_cases hxa : x = a
    · subst hxa
      simp [List.filter_cons, ih hrest, hx]
    · have hmm : a ∈ x :: rest ↔ a ∈ rest := by
        constructor
        · intro hm
          rcases List.mem_cons.mp hm with h1 | h1
          · exact absurd h1.symm hxa
          · exact h1
        · exact List.mem_cons_of_mem x
      rw [List.filter_cons]
      have hb : (x == a) = false := by simp [hxa]
      rw [hb]
      by_cases ha : a ∈ rest
      · simp [ih hrest, ha, hmm.mpr ha]
      · have hnot : a ∉ x :: rest := fun hc => ha (hmm.mp hc)
        simp [ih hrest, ha, hnot]

/-! ### Shape lemmas for the registry operations -/

theorem register_eq_dead (s : RegState) (ident : Nat) (p : String)
    (hdb : lookupA s.databases ident = none) :
    registerToSaveAtExit s ident p = s := by
  unfold registerToSaveAtExit
  rw [hdb]

theorem register_eq_flagged (s : RegState) (ident : Nat) (p : String) (db : Database)
    (hdb : lookupA s.databases ident = some db) (hflag : db.shouldSaveAtExit = true) :
    registerToSaveAtExit s ident p =
      { s with databases := setA s.databases ident { db with atExitSaveFilename := p } } := by
  unfold registerToSaveAtExit
  rw [hdb]
  simp [hflag]

theorem register_eq_unflagged (s : RegState) (ident : Nat) (p : String) (db : Database)
    (hdb : lookupA s.databases ident = some db) (hflag : db.shouldSaveAtExit = false) :
    registerToSaveAtExit s ident p =
      { s with
          databases := setA s.databases ident
            { db with atExitSaveFilename := p, shouldSaveAtExit := true },
          registry := ident :: s.registry,
          didRegisterAtExit := s.didRegisterAtExit + 1 } := by
  unfold registerToSaveAtExit
  rw [hdb]
  simp [hflag, addDatabaseToAtExit]

theorem destruct_eq_dead (s : RegState) (ident : Nat)
    (hdb : lookupA s.databases ident = none) :
    destructDatabase s ident = s := by
  unfold destructDatabase
  rw [hdb]

theorem destruct_eq_unflagged (s : RegState) (ident : Nat) (db : Database)
    (hdb : lookupA s.databases ident = some db) (hflag : db.shouldSaveAtExit = false) :
    destructDatabase s ident = { s with databases := removeA s.databases ident } := by
  unfold destructDatabase
  rw [hdb]
  simp [hflag]

theorem destruct_eq_flagged (s : RegState) (ident : Nat) (db : Database)
    (hdb : lookupA s.databases ident = some db) (hflag : db.shouldSaveAtExit = true)
    (hin : ident ∈ s.registry) :
    destructDatabase s ident =
      { s with
          databases := removeA (clearFlag s.databases ident) ident,
          registry := s.registry.erase ident,
          flushes := s.flushes ++ [(ident, db.atExitSaveFilename)] } := by
  unfold destructDatabase
  rw [hdb]
  have hlook : lookupA (clearFlag s.databases ident) ident =
      some { db with shouldSaveAtExit := false } := by
    rw [lookupA_clearFlag, hdb]
    simp
  simp [hflag, performAtExitSave, removeDatabaseFromAtExit, hin, hlook]

theorem dbPath_clearFlag (dbs : List (Nat × Database)) (ident i : Nat) :
    dbPath (clearFlag dbs ident) i = dbPath dbs i := by
  unfold dbPath
  rw [lookupA_clearFlag]
  cases lookupA dbs i with
  | none => rfl
  | some db => by_cases hi : i = ident <;> simp [hi]

/-! ### The at-exit drain -/

theorem atExitLoop_flushes : ∀ (r : List Nat) (s : RegState), s.registry = r →
    (∀ i ∈ r, (lookupA s.databases i).isSome = true) →
    (atExitLoop s r.length).flushes =
      s.flushes ++ r.map (fun i => (i, dbPath s.databases i)) := by
  intro r
  induction r with
  | nil =>
    intro s hreg _
    simp [atExitLoop]
  | cons ident rest ih =>
    intro s hreg hlive
    obtain ⟨dbs, reg, cnt, fl⟩ := s
    simp only at hreg
    subst hreg
    have hident : (lookupA dbs ident).isSome = true := hlive ident (List.mem_cons_self _ _)
    obtain ⟨db, hdb⟩ := Option.isSome_iff_exists.mp hident
    have hstep : atExitLoop ⟨dbs, ident :: rest, cnt, fl⟩ (ident :: rest).length =
        atExitLoop
          ⟨clearFlag dbs ident, rest, cnt, fl ++ [(ident, db.atExitSaveFilename)]⟩
          rest.length := by
      have hlook : lookupA (clearFlag dbs ident) ident =
          some { db with shouldSaveAtExit := false } := by
        rw [lookupA_clearFlag, hdb]
        simp
      simp [atExitLoop, removeFirstAtExitDatabase, performAtExitSave, hlook]
    rw [hstep]
    have hlive2 : ∀ i ∈ rest, (lookupA (clearFlag dbs ident) i).isSome = true := by
      intro i hi
      rw [lookupA_clearFlag]
      have := hlive i (List.mem_cons_of_mem _ hi)
      cases hl : lookupA dbs i with
      | none => rw [hl] at this; simp at this
      | some d => simp
    have := ih ⟨clearFlag dbs ident, rest, cnt, fl ++ [(ident, db.atExitSaveFilename)]⟩
      rfl hlive2
    rw [this]
    simp only [List.map_cons, List.append_assoc, List.singleton_append]
    congr 1
    congr 1
    · unfold dbPath
      rw [hdb]
    · exact List.map_congr_left fun i _ => by rw [dbPath_clearFlag]

theorem atExitCallback_flushes (s : RegState)
    (hlive : ∀ i ∈ s.registry, (lookupA s.databases i).isSome = true) :
    (atExitCallback s).flushes =
      s.flushes ++ s.registry.map (fun i => (i, dbPath s.databases i)) :=
  atExitLoop_flushes s.registry s rfl hlive

/-! ### The registry invariant: a database is linked into the at-exit list
exactly when it is live and flagged, and the list holds no duplicates. -/

def RegInv (s : RegState) : Prop :=
  s.registry.Nodup ∧
  (∀ i ∈ s.registry, ∃ db, lookupA s.databases i = some db ∧ db.shouldSaveAtExit = true) ∧
  (∀ i db, lookupA s.databases i = some db → db.shouldSaveAtExit = true → i ∈ s.registry)

theorem regInv_notin (s : RegState) (ident : Nat) (db : Database)
    (h : RegInv s) (hdb : lookupA s.databases ident = some db)
    (hflag : db.shouldSaveAtExit = false) : ident ∉ s.registry := by
  intro hin
  rcases h.2.1 ident hin with ⟨db2, hdb2, hfl2⟩
  rw [hdb] at hdb2
  injection hdb2 with he
  rw [← he, hflag] at hfl2
  simp at hfl2

theorem regInv_register (s : RegState) (ident : Nat) (p : String) (h : RegInv s) :
    RegInv (registerToSaveAtExit s ident p) := by
  obtain ⟨h1, h2, h3⟩ := h
  cases hdb : lookupA s.databases ident with
  | none => rw [register_eq_dead s ident p hdb]; exact ⟨h1, h2, h3⟩
  | some db =>
    cases hflag : db.shouldSaveAtExit with
    | true =>
      rw [register_eq_flagged s ident p db hdb hflag]
      refine ⟨h1, ?_, ?_⟩
      · intro i hi
        by_cases hiq : ident = i
        · subst hiq
          refine ⟨{ db with atExitSaveFilename := p }, ?_, hflag⟩
          rw [lookupA_setA]
          simp
        · rcases h2 i hi with ⟨dbi, hdbi, hfl⟩
          refine ⟨dbi, ?_, hfl⟩
          rw [lookupA_setA, if_neg hiq]
          exact hdbi
      · intro i dbi hdbi hfl
        rw [lookupA_setA] at hdbi
        by_cases hiq : ident = i
        · subst hiq
          exact h3 ident db hdb hflag
        · rw [if_neg hiq] at hdbi
          exact h3 i dbi hdbi hfl
    | false =>
      rw [register_eq_unflagged s ident p db hdb hflag]
      have hnotin : ident ∉ s.registry :=
        regInv_notin s ident db ⟨h1, h2, h3⟩ hdb hflag
      refine ⟨List.nodup_cons.mpr ⟨hnotin, h1⟩, ?_, ?_⟩
      · intro i hi
        rcases List.mem_cons.mp hi with hiq | hi2
        · subst hiq
          refine ⟨{ db with atExitSaveFilename := p, shouldSaveAtExit := true }, ?_, rfl⟩
          rw [lookupA_setA]
          simp
        · have hiq : ident ≠ i := fun he => hnotin (he ▸ hi2)
          rcases h2 i hi2 with ⟨dbi, hdbi, hfl⟩
          refine ⟨dbi, ?_, hfl⟩
          rw [lookupA_setA, if_neg hiq]
          exact hdbi
      · intro i dbi hdbi hfl
        rw [lookupA_setA] at hdbi
        by_cases hiq : ident = i
        · subst hiq
          exact List.mem_cons_self _ _
        · rw [if_neg hiq] at hdbi
          exact List.mem_cons_of_mem _ (h3 i dbi hdbi hfl)

theorem regInv_destruct (s : RegState) (ident : Nat) (h : RegInv s) :
    RegInv (destructDatabase s ident) := by
  obtain ⟨h1, h2, h3⟩ := h
  cases hdb : lookupA s.databases ident with
  | none => rw [destruct_eq_dead s ident hdb]; exact ⟨h1, h2, h3⟩
  | some db =>
    cases hflag : db.shouldSaveAtExit with
    | false =>
      rw [destruct_eq_unflagged s ident db hdb hflag]
      have hnotin : ident ∉ s.registry :=
        regInv_notin s ident db ⟨h1, h2, h3⟩ hdb hflag
      refine ⟨h1, ?_, ?_⟩
      · intro i hi
        have hiq : ident ≠ i := fun he => hnotin (he ▸ hi)
        rcases h2 i hi with ⟨dbi, hdbi, hfl⟩
        refine ⟨dbi, ?_, hfl⟩
        rw [lookupA_removeA, if_neg hiq]
        exact hdbi
      · intro i dbi hdbi hfl
        rw [lookupA_removeA] at hdbi
        by_cases hiq : ident = i
        · rw [if_pos hiq] at hdbi; exact absurd hdbi (by simp)
        · rw [if_neg hiq] at hdbi
          exact h3 i dbi hdbi hfl
    | true =>
      have hin : ident ∈ s.registry := h3 ident db hdb hflag
      rw [destruct_eq_flagged s ident db hdb hflag hin]
      refine ⟨h1.erase ident, ?_, ?_⟩
      · intro i hi
        have hi2 : i ∈ s.registry := List.mem_of_mem_erase hi
        have hiq : ident ≠ i := by
          intro he
          rw [← he] at hi
          exact (List.Nodup.not_mem_erase h1) hi
        have hine : i ≠ ident := fun he => hiq he.symm
        rcases h2 i hi2 with ⟨dbi, hdbi, hfl⟩
        refine ⟨dbi, ?_, hfl⟩
        rw [lookupA_removeA, if_neg hiq, lookupA_clearFlag, hdbi]
        simp [hine]
      · intro i dbi hdbi hfl
        rw [lookupA_removeA] at hdbi
        by_cases hiq : ident = i
        · rw [if_pos hiq] at hdbi; exact absurd hdbi (by simp)
        · rw [if_neg hiq, lookupA_clearFlag] at hdbi
          have hine : i ≠ ident := fun he => hiq he.symm
          cases hl : lookupA s.databases i with
          | none => rw [hl] at hdbi; simp at hdbi
          | some d =>
            rw [hl] at hdbi
            simp [hine] at hdbi
            rw [← hdbi] at hfl
            exact (List.mem_erase_of_ne hine).mpr (h3 i d hl hfl)

/-! ### Per-database flush accounting

`Acct s ident acc` relates the state to `acc`, the path most recently set by
a `register` command for `ident` in the trace consumed so far: while the
database is live its flush list is empty and its flag-and-filename state
matches `acc`; once it is gone its flush list is exactly `acc.toList`. -/

def Acct (s : RegState) (ident : Nat) (acc : Option String) : Prop :=
  match lookupA s.databases ident with
  | some db =>
    flushPathsFor s.flushes ident = [] ∧
      acc = (if db.shouldSaveAtExit then some db.atExitSaveFilename else none)
  | none => flushPathsFor s.flushes ident = acc.toList

theorem acct_init (idents : List Nat) (ident : Nat) :
    Acct (initState idents) ident none := by
  unfold Acct
  cases hl : lookupA (initState idents).databases ident with
  | none => simp [flushPathsFor, initState]
  | some db =>
    have hd : db = {} := lookupA_map_const idents {} ident db (by simpa [initState] using hl)
    subst hd
    constructor
    · simp [flushPathsFor, initState]
    · simp [Database.shouldSaveAtExit]

theorem regInv_init (idents : List Nat) : RegInv (initState idents) := by
  refine ⟨List.nodup_nil, ?_, ?_⟩
  · intro i hi
    simp [initState] at hi
  · intro i db hdb hfl
    have hd : db = {} := lookupA_map_const idents {} i db (by simpa [initState] using hdb)
    subst hd
    simp [Database.shouldSaveAtExit] at hfl

theorem flushPathsFor_concat (fl : List (Nat × String)) (x : Nat × String) (ident : Nat) :
    flushPathsFor (fl ++ [x]) ident =
      flushPathsFor fl ident ++ (if x.1 = ident then [x.2] else []) := by
  unfold flushPathsFor
  simp only [List.filter_append, List.map_append]
  congr 1
  by_cases hx : x.1 = ident <;> simp [hx]

theorem flushPathsFor_append (fl1 fl2 : List (Nat × String)) (ident : Nat) :
    flushPathsFor (fl1 ++ fl2) ident =
      flushPathsFor fl1 ident ++ flushPathsFor fl2 ident := by
  unfold flushPathsFor
  simp [List.filter_append]

theorem acct_register (s : RegState) (ident i : Nat) (p : String) (acc : Option String)
    (hlv : (lookupA s.databases i).isSome = true) (hacct : Acct s ident acc) :
    Acct (registerToSaveAtExit s i p) ident (if i = ident then some p else acc) := by
  obtain ⟨db, hdb⟩ := Option.isSome_iff_exists.mp hlv
  cases hflag : db.shouldSaveAtExit with
  | true =>
    rw [register_eq_flagged s i p db hdb hflag]
    unfold Acct at hacct ⊢
    by_cases hiq : i = ident
    · subst hiq
      rw [show lookupA (setA s.databases i { db with atExitSaveFilename := p }) i =
          some { db with atExitSaveFilename := p } by rw [lookupA_setA]; simp]
      rw [hdb] at hacct
      exact ⟨hacct.1, by simp [hflag]⟩
    · rw [show lookupA (setA s.databases i { db with atExitSaveFilename := p }) ident =
          lookupA s.databases ident by rw [lookupA_setA, if_neg hiq]]
      simpa [hiq] using hacct
  | false =>
    rw [register_eq_unflagged s i p db hdb hflag]
    unfold Acct at hacct ⊢
    by_cases hiq : i = ident
    · subst hiq
      rw [show lookupA
          (setA s.databases i { db with atExitSaveFilename := p, shouldSaveAtExit := true }) i =
          some { db with atExitSaveFilename := p, shouldSaveAtExit := true } by
        rw [lookupA_setA]; simp]
      rw [hdb] at hacct
      exact ⟨hacct.1, by simp⟩
    · rw [show lookupA
          (setA s.databases i { db with atExitSaveFilename := p, shouldSaveAtExit := true })
            ident = lookupA s.databases ident by rw [lookupA_setA, if_neg hiq]]
      simpa [hiq] using hacct

theorem acct_destruct (s : RegState) (ident i : Nat) (acc : Option String)
    (hinv : RegInv s) (hacct : Acct s ident acc) :
    Acct (destructDatabase s i) ident acc := by
  cases hdb : lookupA s.databases i with
  | none => rw [destruct_eq_dead s i hdb]; exact hacct
  | some db =>
    cases hflag : db.shouldSaveAtExit with
    | false =>
      rw [destruct_eq_unflagged s i db hdb hflag]
      unfold Acct at hacct ⊢
      dsimp only
      by_cases hiq : i = ident
      · subst hiq
        rw [show lookupA (removeA s.databases i) i = none by rw [lookupA_removeA]; simp]
        rw [hdb] at hacct
        rw [hacct.1, hacct.2]
        simp [hflag]
      · rw [show lookupA (removeA s.databases i) ident = lookupA s.databases ident by
          rw [lookupA_removeA, if_neg hiq]]
        exact hacct
    | true =>
      have hin : i ∈ s.registry := hinv.2.2 i db hdb hflag
      have hine : ∀ j : Nat, i ≠ j → j ≠ i := fun j h he => h he.symm
      rw [destruct_eq_flagged s i db hdb hflag hin]
      unfold Acct at hacct ⊢
      dsimp only
      by_cases hiq : i = ident
      · subst hiq
        rw [show lookupA (removeA (clearFlag s.databases i) i) i = none by
          rw [lookupA_removeA]; simp]
        rw [hdb] at hacct
        rw [flushPathsFor_concat, hacct.1, hacct.2]
        simp [hflag]
      · rw [show lookupA (removeA (clearFlag s.databases i) i) ident =
            lookupA s.databases ident by
          rw [lookupA_removeA, if_neg hiq, lookupA_clearFlag]
          cases lookupA s.databases ident with
          | none => rfl
          | some d => simp [hine ident hiq]]
        have hflc : flushPathsFor (s.flushes ++ [(i, db.atExitSaveFilename)]) ident =
            flushPathsFor s.flushes ident := by
          rw [flushPathsFor_concat]
          simp [hiq]
        cases hl : lookupA s.databases ident with
        | none =>
          rw [hl] at hacct
          rw [hflc]
          exact hacct
        | some d =>
          rw [hl] at hacct
          rw [hflc]
          exact hacct

theorem flushPathsFor_regmap (reg : List Nat) (dbs : List (Nat × Database)) (ident : Nat) :
    flushPathsFor (reg.map (fun i => (i, dbPath dbs i))) ident =
      (reg.filter (fun i => i == ident)).map (fun i => dbPath dbs i) := by
  induction reg with
  | nil => simp [flushPathsFor]
  | cons x rest ih =>
    by_cases hx : x = ident
    · subst hx
      simp only [List.map_cons, List.filter_cons]
      simp [flushPathsFor, List.filter_cons] at ih ⊢
      exact ih
    · have hb : (x == ident) = false := by simp [hx]
      simp only [List.map_cons, List.filter_cons, hb]
      simp [flushPathsFor, List.filter_cons, hb] at ih ⊢
      exact ih

theorem acct_exit (s : RegState) (ident : Nat) (acc : Option String)
    (hinv : RegInv s) (hacct : Acct s ident acc) :
    flushPathsFor (atExitCallback s).flushes ident = acc.toList := by
  have hlive : ∀ i ∈ s.registry, (lookupA s.databases i).isSome = true := by
    intro i hi
    rcases hinv.2.1 i hi with ⟨db, hdb, _⟩
    rw [hdb]
    rfl
  have hfl := atExitCallback_flushes s hlive
  rw [hfl, flushPathsFor_append, flushPathsFor_regmap,
    filter_eq_of_nodup s.registry ident hinv.1]
  unfold Acct at hacct
  cases hdb : lookupA s.databases ident with
  | none =>
    rw [hdb] at hacct
    have hnotin : ident ∉ s.registry := by
      intro hin
      rcases hinv.2.1 ident hin with ⟨db, hdb2, _⟩
      rw [hdb] at hdb2
      exact Option.noConfusion hdb2
    simp [hnotin, hacct]
  | some db =>
    rw [hdb] at hacct
    rcases hacct with ⟨hfl1, hacc⟩
    cases hflag : db.shouldSaveAtExit with
    | true =>
      have hin : ident ∈ s.registry := hinv.2.2 ident db hdb hflag
      rw [hflag] at hacc
      simp at hacc
      rw [hfl1, hacc]
      unfold dbPath
      simp [hin, hdb]
    | false =>
      have hnotin : ident ∉ s.registry := regInv_notin s ident db hinv hdb hflag
      rw [hflag] at hacc
      simp at hacc
      rw [hfl1, hacc]
      simp [hnotin]

theorem c1_aux : ∀ (cmds : List Cmd) (s : RegState) (ident : Nat) (acc : Option String),
    validFrom s cmds = true → RegInv s → Acct s ident acc →
    flushPathsFor (run s cmds).flushes ident = (lastRegPathFrom ident acc cmds).toList := by
  intro cmds
  induction cmds with
  | nil =>
    intro s ident acc hv _ _
    simp [validFrom] at hv
  | cons c rest ih =>
    intro s ident acc hv hinv hacct
    cases c with
    | procExit =>
      have hrest : rest = [] := by
        cases rest with
        | nil => rfl
        | cons x xs => simp [validFrom] at hv
      subst hrest
      simp only [run, step, lastRegPathFrom]
      exact acct_exit s ident acc hinv hacct
    | register i p =>
      have hv2 := hv
      simp only [validFrom, Bool.and_eq_true] at hv2
      have hnext := ih (registerToSaveAtExit s i p) ident
        (if i = ident then some p else acc) hv2.2
        (regInv_register s i p hinv) (acct_register s ident i p acc hv2.1 hacct)
      simpa [run, step, lastRegPathFrom] using hnext
    | destruct i =>
      have hv2 := hv
      simp only [validFrom, Bool.and_eq_true] at hv2
      have hnext := ih (destructDatabase s i) ident acc hv2.2
        (regInv_destruct s i hinv) (acct_destruct s ident i acc hinv hacct)
      simpa [run, step, lastRegPathFrom] using hnext

/-- Claim C1: over any valid trace (every command touches a live store and the
process exit is the final command), each store is flushed exactly to the paths
recorded by its `register` commands, with exactly one flush at the most
recently set path when it registered at all (and none when it never did); and
re-registering an already-flagged store only updates the recorded path,
leaving the at-exit list, the flush log and the one-shot counter untouched. -/
theorem shutdown_save_flushes_once (idents : List Nat) (cmds : List Cmd) (ident : Nat)
    (hv : validFrom (initState idents) cmds = true) :
    flushPathsFor (run (initState idents) cmds).flushes ident =
      (lastRegPath cmds ident).toList ∧
    (∀ (s : RegState) (db : Database) (p : String),
      lookupA s.databases ident = some db → db.shouldSaveAtExit = true →
      registerToSaveAtExit s ident p =
        { s with databases := setA s.databases ident { db with atExitSaveFilename := p } }) := by
  constructor
  · exact c1_aux cmds (initState idents) ident none hv (regInv_init idents)
      (acct_init idents ident)
  · intro s db p hdb hflag
    exact register_eq_flagged s ident p db hdb hflag

theorem shutdown_save_flushes_once_witness :
    validFrom (initState [1, 2]) [.register 1 "p1", .register 1 "p2", .procExit] = true ∧
    flushPathsFor
        (run (initState [1, 2]) [.register 1 "p1", .register 1 "p2", .procExit]).flushes 1 =
      (lastRegPath [.register 1 "p1", .register 1 "p2", .procExit] 1).toList :=
  ⟨by decide,
    (shutdown_save_flushes_once [1, 2] [.register 1 "p1", .register 1 "p2", .procExit] 1
      (by decide)).1⟩

/-- Claim C2: registration pushes onto the head of the at-exit list, the exit
hook drains head-first, so three distinct stores registered as A, B, C and
still registered at process exit are flushed in the order C, B, A, each to its
own path; and popping from an empty registry returns nothing. -/
theorem atExit_lifo_order (a b c : Nat) (pa pb pc : String)
    (hab : a ≠ b) (hac : a ≠ c) (hbc : b ≠ c) :
    (run (initState [a, b, c])
        [.register a pa, .register b pb, .register c pc, .procExit]).flushes =
      [(c, pc), (b, pb), (a, pa)] ∧
    (∀ (s : RegState) (ident : Nat) (p : String) (db : Database),
      lookupA s.databases ident = some db → db.shouldSaveAtExit = false →
      (registerToSaveAtExit s ident p).registry = ident :: s.registry) ∧
    (∀ s : RegState, s.registry = [] → removeFirstAtExitDatabase s = (none, s)) := by
  refine ⟨?_, ?_, ?_⟩
  · have hba : ¬ b = a := fun h => hab h.symm
    have hca : ¬ c = a := fun h => hac h.symm
    have hcb : ¬ c = b := fun h => hbc h.symm
    have hrun : run (initState [a, b, c])
        [.register a pa, .register b pb, .register c pc, .procExit] =
        atExitCallback
          { databases :=
              [(a, { shouldSaveAtExit := true, atExitSaveFilename := pa }),
               (b, { shouldSaveAtExit := true, atExitSaveFilename := pb }),
               (c, { shouldSaveAtExit := true, atExitSaveFilename := pc })],
            registry := [c, b, a], didRegisterAtExit := 3, flushes := [] } := by
      simp [run, step, registerToSaveAtExit, addDatabaseToAtExit, initState, lookupA, setA,
        hab, hac, hbc, hba, hca, hcb, Database.shouldSaveAtExit]
    rw [hrun]
    have hfl := atExitCallback_flushes
      { databases :=
          [(a, { shouldSaveAtExit := true, atExitSaveFilename := pa }),
           (b, { shouldSaveAtExit := true, atExitSaveFilename := pb }),
           (c, { shouldSaveAtExit := true, atExitSaveFilename := pc })],
        registry := [c, b, a], didRegisterAtExit := 3, flushes := [] }
      (by
        intro i hi
        rcases List.mem_cons.mp hi with h | hi2
        · subst h; simp [lookupA, hac, hbc]
        rcases List.mem_cons.mp hi2 with h | hi3
        · subst h; simp [lookupA, hab]
        rcases List.mem_cons.mp hi3 with h | hi4
        · subst h; simp [lookupA]
        · exact absurd hi4 (List.not_mem_nil i))
    have hexit : (atExitCallback
        { databases :=
            [(a, { shouldSaveAtExit := true, atExitSaveFilename := pa }),
             (b, { shouldSaveAtExit := true, atExitSaveFilename := pb }),
             (c, { shouldSaveAtExit := true, atExitSaveFilename := pc })],
          registry := [c, b, a], didRegisterAtExit := 3, flushes := [] }).flushes =
        [(c, pc), (b, pb), (a, pa)] := by
      rw [hfl]
      simp [dbPath, lookupA, hab, hac, hbc]
    exact hexit
  · intro s ident p db hdb hflag
    rw [register_eq_unflagged s ident p db hdb hflag]
  · intro s hreg
    unfold removeFirstAtExitDatabase
    rw [hreg]

theorem atExit_lifo_order_witness :
    (1 : Nat) ≠ 2 ∧ (1 : Nat) ≠ 3 ∧ (2 : Nat) ≠ 3 ∧
    (run (initState [1, 2, 3])
        [.register 1 "pa", .register 2 "pb", .register 3 "pc", .procExit]).flushes =
      [(3, "pc"), (2, "pb"), (1, "pa")] :=
  ⟨by decide, by decide, by decide,
    (atExit_lifo_order 1 2 3 "pa" "pb" "pc" (by decide) (by decide) (by decide)).1⟩

/-! ### Store-level lemmas -/

theorem lookupA_mem {κ α : Type} [DecidableEq κ] (m : List (κ × α)) (k : κ) (v : α)
    (h : lookupA m k = some v) : (k, v) ∈ m := by
  induction m with
  | nil => simp [lookupA] at h
  | cons p rest ih =>
    obtain ⟨k0, v0⟩ := p
    by_cases h0 : k0 = k
    · subst h0
      simp [lookupA] at h
      subst h
      exact List.mem_cons_self _ _
    · simp [lookupA, h0] at h
      exact List.mem_cons_of_mem _ (ih h)

theorem removeA_eq_self {κ α : Type} [DecidableEq κ] (m : List (κ × α)) (k : κ)
    (h : lookupA m k = none) : removeA m k = m := by
  induction m with
  | nil => rfl
  | cons p rest ih =>
    obtain ⟨k0, v0⟩ := p
    by_cases h0 : k0 = k
    · subst h0
      simp [lookupA] at h
    · simp [lookupA, h0] at h
      simp [removeA, h0] at ih ⊢
      exact ih h

theorem ensure_present (baseline : Nat → Nat) (db : Database) (h i : Nat)
    (hl : lookupA db.bytecodesMap (baseline h) = some i) :
    ensureBytecodesFor baseline db h = (db, i) := by
  unfold ensureBytecodesFor
  dsimp only
  rw [hl]

theorem ensure_absent (baseline : Nat → Nat) (db : Database) (h : Nat)
    (hl : lookupA db.bytecodesMap (baseline h) = none) :
    ensureBytecodesFor baseline db h =
      ({ db with
          bytecodes := db.bytecodes ++ [⟨db.bytecodes.length, baseline h⟩],
          bytecodesMap := setA db.bytecodesMap (baseline h) db.bytecodes.length },
        db.bytecodes.length) := by
  unfold ensureBytecodesFor
  dsimp only
  rw [hl]

theorem ensure_compilationMap (baseline : Nat → Nat) (db : Database) (h : Nat) :
    (ensureBytecodesFor baseline db h).1.compilationMap = db.compilationMap := by
  cases hl : lookupA db.bytecodesMap (baseline h) with
  | some i => rw [ensure_present baseline db h i hl]
  | none => rw [ensure_absent baseline db h hl]

theorem ensure_compilations (baseline : Nat → Nat) (db : Database) (h : Nat) :
    (ensureBytecodesFor baseline db h).1.compilations = db.compilations := by
  cases hl : lookupA db.bytecodesMap (baseline h) with
  | some i => rw [ensure_present baseline db h i hl]
  | none => rw [ensure_absent baseline db h hl]

theorem ensure_events (baseline : Nat → Nat) (db : Database) (h : Nat) :
    (ensureBytecodesFor baseline db h).1.events = db.events := by
  cases hl : lookupA db.bytecodesMap (baseline h) with
  | some i => rw [ensure_present baseline db h i hl]
  | none => rw [ensure_absent baseline db h hl]

theorem ensureList_present (baseline : Nat → Nat) :
    ∀ (hs : List Nat) (db : Database) (h i : Nat),
    (∀ x ∈ hs, baseline x = baseline h) →
    lookupA db.bytecodesMap (baseline h) = some i →
    ensureList baseline db hs = (db, List.replicate hs.length i) := by
  intro hs
  induction hs with
  | nil => intro db h i _ _; rfl
  | cons x rest ih =>
    intro db h i hall hl
    have hx : baseline x = baseline h := hall x (List.mem_cons_self _ _)
    have hstep : ensureBytecodesFor baseline db x = (db, i) :=
      ensure_present baseline db x i (by rw [hx]; exact hl)
    have hrest := ih db h i (fun y hy => hall y (List.mem_cons_of_mem _ hy)) hl
    simp only [ensureList, hstep, hrest, List.length_cons, List.replicate]

theorem inv_ensure (baseline : Nat → Nat) (db : Database) (h : Nat) (hinv : Inv db) :
    Inv (ensureBytecodesFor baseline db h).1 := by
  obtain ⟨h1, h2, h3, h4, h5⟩ := hinv
  cases hl : lookupA db.bytecodesMap (baseline h) with
  | some i => rw [ensure_present baseline db h i hl]; exact ⟨h1, h2, h3, h4, h5⟩
  | none =>
    rw [ensure_absent baseline db h hl]
    refine ⟨?_, h2, ?_, h4, ?_⟩
    · intro p hp
      rcases mem_setA db.bytecodesMap (baseline h) db.bytecodes.length p hp with he | hm
      · subst he
        simp

      · have := h1 p hm
        simp
        omega
    · exact nodup_keys_setA db.bytecodesMap (baseline h) db.bytecodes.length h3
    · intro i hi
      simp only [List.length_append, List.length_singleton] at hi
      by_cases hlt : i < db.bytecodes.length
      · rw [List.getD_append _ _ _ _ hlt]
        exact h5 i hlt
      · have hieq : i = db.bytecodes.length := by omega
        subst hieq
        rw [List.getD_append_right _ _ _ _ (Nat.le_refl _)]
        simp

theorem keyConsistent_ensure (baseline : Nat → Nat) (db : Database) (h : Nat)
    (hinv : Inv db) (hkc : KeyConsistent db) :
    KeyConsistent (ensureBytecodesFor baseline db h).1 := by
  cases hl : lookupA db.bytecodesMap (baseline h) with
  | some i => rw [ensure_present baseline db h i hl]; exact hkc
  | none =>
    rw [ensure_absent baseline db h hl]
    intro p hp
    rcases mem_setA db.bytecodesMap (baseline h) db.bytecodes.length p hp with he | hm
    · subst he
      simp only
      rw [List.getD_append_right _ _ _ _ (Nat.le_refl _)]
      simp
    · have hb := hinv.1 p hm
      simp only
      rw [List.getD_append _ _ _ _ hb]
      exact hkc p hm

theorem inv_notify (db : Database) (h : Nat) (hinv : Inv db) :
    Inv (notifyDestruction db h) := by
  obtain ⟨h1, h2, h3, h4, h5⟩ := hinv
  refine ⟨?_, ?_, ?_, ?_, h5⟩
  · intro p hp
    exact h1 p (mem_removeA db.bytecodesMap h p hp)
  · intro p hp
    exact h2 p (mem_removeA db.compilationMap h p hp)
  · exact h3.sublist (keys_removeA_sublist db.bytecodesMap h)
  · exact h4.sublist (keys_removeA_sublist db.compilationMap h)

theorem inv_addCompilation (db : Database) (h r : Nat) (hinv : Inv db) :
    Inv (addCompilation db h r) := by
  obtain ⟨h1, h2, h3, h4, h5⟩ := hinv
  unfold Inv addCompilation
  dsimp only
  refine ⟨h1, ?_, h3, ?_, h5⟩
  · intro p hp
    rcases mem_setA db.compilationMap h db.compilations.length p hp with he | hm
    · subst he
      simp
    · have := h2 p hm
      simp
      omega
  · exact nodup_keys_setA db.compilationMap h db.compilations.length h4

theorem inv_logEvent (baseline : Nat → Nat) (db : Database) (h : Nat)
    (s d : String) (t : Nat) (hinv : Inv db) :
    Inv (logEvent baseline db h s d t) := by
  have he := inv_ensure baseline db h hinv
  obtain ⟨h1, h2, h3, h4, h5⟩ := he
  exact ⟨h1, h2, h3, h4, h5⟩

/-- Claim C3: `ensureBytecodesFor` canonicalizes the handle and returns the
indexed entry if present (leaving the store untouched), otherwise appends a
new entry carrying the next sequential index (the current collection length)
and indexes it; any sequence of calls whose handles share one canonical form,
starting from a store where that form is unindexed, creates exactly one entry
and every call returns that same entry. The operation is total. -/
theorem ensureUnitProfile_spec (baseline : Nat → Nat) (db : Database) (h i : Nat)
    (hs : List Nat) (hall : ∀ x ∈ hs, baseline x = baseline h)
    (habsent : lookupA db.bytecodesMap (baseline h) = none) :
    (lookupA db.bytecodesMap (baseline h) = some i →
      ensureBytecodesFor baseline db h = (db, i)) ∧
    (ensureBytecodesFor baseline db h).2 = db.bytecodes.length ∧
    (ensureBytecodesFor baseline db h).1.bytecodes =
      db.bytecodes ++ [⟨db.bytecodes.length, baseline h⟩] ∧
    lookupA (ensureBytecodesFor baseline db h).1.bytecodesMap (baseline h) =
      some db.bytecodes.length ∧
    (ensureList baseline db (h :: hs)).1.bytecodes.length = db.bytecodes.length + 1 ∧
    (ensureList baseline db (h :: hs)).2 =
      List.replicate (hs.length + 1) db.bytecodes.length := by
  have habs := ensure_absent baseline db h habsent
  have hlook : lookupA (ensureBytecodesFor baseline db h).1.bytecodesMap (baseline h) =
      some db.bytecodes.length := by
    rw [habs]
    dsimp only
    rw [lookupA_setA]
    simp
  have hrest := ensureList_present baseline hs (ensureBytecodesFor baseline db h).1 h
    db.bytecodes.length hall hlook
  refine ⟨?_, ?_, ?_, hlook, ?_, ?_⟩
  · intro hpres
    rw [hpres] at habsent
    exact Option.noConfusion habsent
  · rw [habs]
  · rw [habs]
  · simp only [ensureList, hrest]
    rw [habs]
    simp
  · simp only [ensureList, hrest]
    rw [habs]
    simp [List.replicate]

theorem ensureUnitProfile_spec_witness :
    (∀ x ∈ [5, 5], (fun n : Nat => n) x = (fun n : Nat => n) 5) ∧
    lookupA (Database.bytecodesMap {}) ((fun n : Nat => n) 5) = none ∧
    (ensureList (fun n => n) {} [5, 5, 5]).2 = List.replicate 3 0 :=
  ⟨by decide, by decide,
    (ensureUnitProfile_spec (fun n => n) {} 5 0 [5, 5] (by decide) (by decide)).2.2.2.2.2⟩

/-- Claim C4: `notifyDestruction` removes the raw handle from both lookup
maps while leaving all three ordered collections unchanged, is a no-op when
the handle is in neither map, and (for a canonical handle satisfying the
store invariant) a subsequent `ensureBytecodesFor` creates a fresh entry
whose sequential index strictly exceeds the destroyed one's. -/
theorem notifyUnitDestroyed_spec (baseline : Nat → Nat) (db : Database) (h i : Nat)
    (hcanon : baseline h = h) (hinv : Inv db)
    (hidx : lookupA db.bytecodesMap h = some i) :
    (notifyDestruction db h).bytecodes = db.bytecodes ∧
    (notifyDestruction db h).compilations = db.compilations ∧
    (notifyDestruction db h).events = db.events ∧
    lookupA (notifyDestruction db h).bytecodesMap h = none ∧
    lookupA (notifyDestruction db h).compilationMap h = none ∧
    (∀ h2, h2 ≠ h →
      lookupA (notifyDestruction db h).bytecodesMap h2 = lookupA db.bytecodesMap h2 ∧
      lookupA (notifyDestruction db h).compilationMap h2 = lookupA db.compilationMap h2) ∧
    (∀ db2 : Database, lookupA db2.bytecodesMap h = none →
      lookupA db2.compilationMap h = none → notifyDestruction db2 h = db2) ∧
    i < db.bytecodes.length ∧
    (ensureBytecodesFor baseline (notifyDestruction db h) h).2 = db.bytecodes.length ∧
    i < (ensureBytecodesFor baseline (notifyDestruction db h) h).2 ∧
    (ensureBytecodesFor baseline (notifyDestruction db h) h).1.bytecodes.length =
      db.bytecodes.length + 1 := by
  have hbound : i < db.bytecodes.length :=
    hinv.1 (h, i) (lookupA_mem db.bytecodesMap h i hidx)
  have hgone : lookupA (notifyDestruction db h).bytecodesMap (baseline h) = none := by
    rw [hcanon]
    show lookupA (removeA db.bytecodesMap h) h = none
    rw [lookupA_removeA]
    simp
  have hnew := ensure_absent baseline (notifyDestruction db h) h hgone
  refine ⟨rfl, rfl, rfl, ?_, ?_, ?_, ?_, hbound, ?_, ?_, ?_⟩
  · show lookupA (removeA db.bytecodesMap h) h = none
    rw [lookupA_removeA]
    simp
  · show lookupA (removeA db.compilationMap h) h = none
    rw [lookupA_removeA]
    simp
  · intro h2 hne
    have hne2 : h ≠ h2 := fun he => hne he.symm
    constructor
    · show lookupA (removeA db.bytecodesMap h) h2 = lookupA db.bytecodesMap h2
      rw [lookupA_removeA, if_neg hne2]
    · show lookupA (removeA db.compilationMap h) h2 = lookupA db.compilationMap h2
      rw [lookupA_removeA, if_neg hne2]
  · intro db2 hb hc
    unfold notifyDestruction
    rw [removeA_eq_self db2.bytecodesMap h hb, removeA_eq_self db2.compilationMap h hc]
  · rw [hnew]
    rfl
  · rw [hnew]
    exact hbound
  · rw [hnew]
    simp [notifyDestruction]

theorem notifyUnitDestroyed_spec_witness :
    (fun n : Nat => n) 5 = 5 ∧
    Inv (ensureBytecodesFor (fun n => n) {} 5).1 ∧
    lookupA (ensureBytecodesFor (fun n => n) {} 5).1.bytecodesMap 5 = some 0 ∧
    (ensureBytecodesFor (fun n => n)
        (notifyDestruction (ensureBytecodesFor (fun n => n) {} 5).1 5) 5).2 =
      (ensureBytecodesFor (fun n => n) {} 5).1.bytecodes.length :=
  ⟨by decide, by decide, by decide,
    (notifyUnitDestroyed_spec (fun n => n) (ensureBytecodesFor (fun n => n) {} 5).1 5 0
      (by decide) (by decide) (by decide)).2.2.2.2.2.2.2.2.1⟩

/-- Claim C5: `addCompilation` appends the record to the ordered compilation
collection and indexes it as the latest compilation for the handle; a later
call for the same handle replaces the index entry but leaves the earlier
record in the collection; after any sequence of calls the collection holds
every record in call order. The other collections and the bytecodes map are
untouched. -/
theorem addCompilationRecord_spec (db : Database) (h r r2 : Nat) :
    (addCompilation db h r).compilations = db.compilations ++ [r] ∧
    lookupA (addCompilation db h r).compilationMap h = some db.compilations.length ∧
    (∀ h2, h2 ≠ h →
      lookupA (addCompilation db h r).compilationMap h2 = lookupA db.compilationMap h2) ∧
    (addCompilation db h r).bytecodes = db.bytecodes ∧
    (addCompilation db h r).events = db.events ∧
    (addCompilation db h r).bytecodesMap = db.bytecodesMap ∧
    lookupA (addCompilation (addCompilation db h r) h r2).compilationMap h =
      some (db.compilations.length + 1) ∧
    (addCompilation (addCompilation db h r) h r2).compilations =
      db.compilations ++ [r, r2] ∧
    (∀ ps : List (Nat × Nat),
      (addCompilationList db ps).compilations =
        db.compilations ++ ps.map (fun p => p.2)) := by
  refine ⟨rfl, ?_, ?_, rfl, rfl, rfl, ?_, ?_, ?_⟩
  · show lookupA (setA db.compilationMap h db.compilations.length) h =
      some db.compilations.length
    rw [lookupA_setA]
    simp
  · intro h2 hne
    have hne2 : h ≠ h2 := fun he => hne he.symm
    show lookupA (setA db.compilationMap h db.compilations.length) h2 =
      lookupA db.compilationMap h2
    rw [lookupA_setA, if_neg hne2]
  · show lookupA
      (setA (addCompilation db h r).compilationMap h
        (addCompilation db h r).compilations.length) h =
      some (db.compilations.length + 1)
    rw [lookupA_setA]
    simp [addCompilation]
  · show (addCompilation db h r).compilations ++ [r2] = db.compilations ++ [r, r2]
    simp [addCompilation]
  · intro ps
    induction ps generalizing db with
    | nil => simp [addCompilationList]
    | cons p rest ih =>
      simp only [addCompilationList, List.map_cons]
      rw [ih (addCompilation db p.1 p.2)]
      simp [addCompilation]

theorem addCompilationRecord_spec_witness :
    ((3 : Nat) ≠ 5) ∧
    lookupA (addCompilation (addCompilation ({} : Database) 5 7) 5 9).compilationMap 5 =
      some 1 :=
  ⟨by decide, (addCompilationRecord_spec {} 5 7 9).2.2.2.2.2.2.1⟩

/-- Claim C6: `logEvent` resolves or creates the bytecodes entry through the
same `ensureBytecodesFor` path, looks up the latest indexed compilation
(possibly absent), and appends exactly one event carrying timestamp, entry
reference, optional compilation, summary and detail; the referenced entry was
created for the canonical form of the handle; no store state changes other
than the event append and the possible entry creation. -/
theorem logEvent_spec (baseline : Nat → Nat) (db : Database) (h : Nat)
    (s d : String) (t : Nat) (hkc : KeyConsistent db) :
    logEvent baseline db h s d t =
      { (ensureBytecodesFor baseline db h).1 with
          events := (ensureBytecodesFor baseline db h).1.events ++
            [⟨t, (ensureBytecodesFor baseline db h).2,
              lookupA db.compilationMap h, s, d⟩] } ∧
    (logEvent baseline db h s d t).events =
      db.events ++
        [⟨t, (ensureBytecodesFor baseline db h).2, lookupA db.compilationMap h, s, d⟩] ∧
    (logEvent baseline db h s d t).compilations = db.compilations ∧
    (logEvent baseline db h s d t).compilationMap = db.compilationMap ∧
    ((logEvent baseline db h s d t).bytecodes.getD
        (ensureBytecodesFor baseline db h).2 default).codeBlock = baseline h := by
  have hcm := ensure_compilationMap baseline db h
  have hev := ensure_events baseline db h
  refine ⟨?_, ?_, ?_, ?_, ?_⟩
  · unfold logEvent
    dsimp only
    rw [hcm]
  · show (ensureBytecodesFor baseline db h).1.events ++
        [⟨t, (ensureBytecodesFor baseline db h).2,
          lookupA (ensureBytecodesFor baseline db h).1.compilationMap h, s, d⟩] =
      db.events ++
        [⟨t, (ensureBytecodesFor baseline db h).2, lookupA db.compilationMap h, s, d⟩]
    rw [hcm, hev]
  · show (ensureBytecodesFor baseline db h).1.compilations = db.compilations
    exact ensure_compilations baseline db h
  · show (ensureBytecodesFor baseline db h).1.compilationMap = db.compilationMap
    exact hcm
  · show ((ensureBytecodesFor baseline db h).1.bytecodes.getD
        (ensureBytecodesFor baseline db h).2 default).codeBlock = baseline h
    cases hl : lookupA db.bytecodesMap (baseline h) with
    | some i =>
      rw [ensure_present baseline db h i hl]
      exact hkc (baseline h, i) (lookupA_mem db.bytecodesMap (baseline h) i hl)
    | none =>
      rw [ensure_absent baseline db h hl]
      dsimp only
      rw [List.getD_append_right _ _ _ _ (Nat.le_refl _)]
      simp

theorem logEvent_spec_witness :
    KeyConsistent ({} : Database) ∧
    (logEvent (fun n => n) {} 5 "s" "d" 9).events =
      Database.events {} ++ [⟨9, (ensureBytecodesFor (fun n => n) {} 5).2, none, "s", "d"⟩] :=
  ⟨by decide, (logEvent_spec (fun n => n) {} 5 "s" "d" 9 (by decide)).2.1⟩

theorem range_map_getD {α β : Type} (l : List α) (d : α) (f : α → β) :
    (List.range l.length).map (fun i => f (l.getD i d)) = l.map f := by
  refine List.ext_get (by simp) ?_
  intro n h1 h2
  have hn : n < l.length := by simpa using h2
  rw [List.get_map, List.get_map, List.get_range]
  rw [List.getD_eq_get l d hn]

/-- Claim C7: `toJS` builds an object with exactly the three array fields
`bytecodes`, `compilations`, `events`, added in that order, where each array
holds the serialization of the corresponding collection entry at each
position, in collection (append) order; `toJSON` is the JSON encoding of that
document. -/
theorem serializeToDocument_spec (serB : Bytecodes → JSValue) (serC : Nat → JSValue)
    (serE : Event → JSValue) (db : Database) :
    toJS serB serC serE db =
      JSValue.jobj
        [("bytecodes", JSValue.jarr (db.bytecodes.map serB)),
         ("compilations", JSValue.jarr (db.compilations.map serC)),
         ("events", JSValue.jarr (db.events.map serE))] ∧
    toJSON serB serC serE db =
      jsonStringify
        (JSValue.jobj
          [("bytecodes", JSValue.jarr (db.bytecodes.map serB)),
           ("compilations", JSValue.jarr (db.compilations.map serC)),
           ("events", JSValue.jarr (db.events.map serE))]) := by
  have hb : toJS serB serC serE db =
      JSValue.jobj
        [("bytecodes", JSValue.jarr (db.bytecodes.map serB)),
         ("compilations", JSValue.jarr (db.compilations.map serC)),
         ("events", JSValue.jarr (db.events.map serE))] := by
    unfold toJS buildArray
    rw [range_map_getD db.bytecodes default serB,
      range_map_getD db.compilations 0 serC,
      range_map_getD db.events ⟨0, 0, none, "", ""⟩ serE]
    rfl
  exact ⟨hb, by unfold toJSON; rw [hb]⟩

/-- Claim C8: `save` makes exactly one open attempt; if the open fails it
returns `false` with the file system untouched (no partial file) and the
database unchanged and reusable; if the open succeeds it writes the full JSON
text produced by `toJSON` and returns `true`. -/
theorem saveToFile_spec (serB : Bytecodes → JSValue) (serC : Nat → JSValue)
    (serE : Event → JSValue) (fs : FileSystem) (db : Database) (p : String) :
    (fs.openFails p = true →
      save serB serC serE fs db p = (false, fs, db, [p])) ∧
    (fs.openFails p = false →
      save serB serC serE fs db p =
        (true, { fs with files := setA fs.files p (toJSON serB serC serE db) }, db, [p])) ∧
    (save serB serC serE fs db p).2.2.1 = db ∧
    (save serB serC serE fs db p).2.2.2 = [p] := by
  refine ⟨?_, ?_, ?_, ?_⟩
  · intro hf
    unfold save
    rw [hf]
    rfl
  · intro hf
    unfold save
    rw [hf]
    rfl
  · unfold save
    cases hf : fs.openFails p <;> rfl
  · unfold save
    cases hf : fs.openFails p <;> rfl

theorem saveToFile_spec_witness :
    (FileSystem.mk [] (fun _ => true)).openFails "p" = true ∧
    save (fun _ => JSValue.jnum 0) (fun _ => JSValue.jnum 0) (fun _ => JSValue.jnum 0)
        (FileSystem.mk [] (fun _ => true)) {} "p" =
      (false, FileSystem.mk [] (fun _ => true), {}, ["p"]) :=
  ⟨rfl,
    (saveToFile_spec (fun _ => JSValue.jnum 0) (fun _ => JSValue.jnum 0)
      (fun _ => JSValue.jnum 0) (FileSystem.mk [] (fun _ => true)) {} "p").1 rfl⟩

/-- Claim C9: each of the four mutating operations preserves the store
invariant: map entries point into their ordered collections, handles are
unique map keys, and the entry at position `i` of the bytecodes collection
carries sequential index `i`. -/
theorem store_invariant_preserved (baseline : Nat → Nat) (db : Database)
    (h r t : Nat) (s d : String) (hinv : Inv db) :
    Inv (ensureBytecodesFor baseline db h).1 ∧
    Inv (notifyDestruction db h) ∧
    Inv (addCompilation db h r) ∧
    Inv (logEvent baseline db h s d t) :=
  ⟨inv_ensure baseline db h hinv, inv_notify db h hinv,
    inv_addCompilation db h r hinv, inv_logEvent baseline db h s d t hinv⟩

theorem store_invariant_preserved_witness :
    Inv ({} : Database) ∧ Inv (addCompilation ({} : Database) 5 7) :=
  ⟨by decide,
    (store_invariant_preserved (fun n => n) {} 5 7 9 "s" "d" (by decide)).2.2.1⟩

/-- Claim C10: only `ensureBytecodesFor` canonicalizes its handle;
`notifyDestruction`, `addCompilation`, and `logEvent`'s compilation lookup
all key on the raw handle. Hence for a handle whose canonical form differs,
destruction leaves the canonical bytecodes-map entry in place; and a
compilation recorded under one handle is not found by `logEvent` under a
different handle with the same canonical form. -/
theorem raw_handle_indexing (baseline : Nat → Nat) (db : Database) (h h2 r t : Nat)
    (s d : String) (hne : h2 ≠ h) (hcanon : baseline h2 = baseline h)
    (hno : lookupA db.compilationMap h2 = none) :
    (baseline h ≠ h →
      lookupA (notifyDestruction db h).bytecodesMap (baseline h) =
        lookupA db.bytecodesMap (baseline h)) ∧
    lookupA (notifyDestruction db h).bytecodesMap h = none ∧
    lookupA (addCompilation db h r).compilationMap h = some db.compilations.length ∧
    (logEvent baseline (addCompilation db h r) h2 s d t).events.getLast? =
      some ⟨t, (ensureBytecodesFor baseline (addCompilation db h r) h2).2,
        none, s, d⟩ := by
  refine ⟨?_, ?_, ?_, ?_⟩
  · intro hbne
    show lookupA (removeA db.bytecodesMap h) (baseline h) =
      lookupA db.bytecodesMap (baseline h)
    rw [lookupA_removeA, if_neg (fun he => hbne he.symm)]
  · show lookupA (removeA db.bytecodesMap h) h = none
    rw [lookupA_removeA]
    simp
  · show lookupA (setA db.compilationMap h db.compilations.length) h =
      some db.compilations.length
    rw [lookupA_setA]
    simp
  · have hraw : lookupA (addCompilation db h r).compilationMap h2 = none := by
      show lookupA (setA db.compilationMap h db.compilations.length) h2 = none
      rw [lookupA_setA, if_neg (fun he => hne he.symm)]
      exact hno
    unfold logEvent
    dsimp only
    rw [ensure_compilationMap, hraw, List.getLast?_concat]

theorem raw_handle_indexing_witness :
    ((3 : Nat) ≠ 2) ∧ (fun n : Nat => n - n % 2) 3 = (fun n : Nat => n - n % 2) 2 ∧
    lookupA (Database.compilationMap {}) 3 = none ∧
    lookupA
        (notifyDestruction (ensureBytecodesFor (fun n => n - n % 2) {} 3).1 3).bytecodesMap
        ((fun n : Nat => n - n % 2) 3) =
      lookupA (ensureBytecodesFor (fun n => n - n % 2) {} 3).1.bytecodesMap
        ((fun n : Nat => n - n % 2) 3) ∧
    (logEvent (fun n => n - n % 2) (addCompilation ({} : Database) 2 7) 3 "s" "d"
        9).events.getLast? =
      some ⟨9, (ensureBytecodesFor (fun n => n - n % 2)
        (addCompilation ({} : Database) 2 7) 3).2, none, "s", "d"⟩ := by
  have happ := raw_handle_indexing (fun n => n - n % 2)
    (ensureBytecodesFor (fun n => n - n % 2) {} 3).1 3 2 7 9 "s" "d"
    (by decide) (by decide) (by decide)
  have happ2 := raw_handle_indexing (fun n => n - n % 2) {} 2 3 7 9 "s" "d"
    (by decide) (by decide) (by decide)
  exact ⟨by decide, by decide, by decide, happ.1 (by decide), happ2.2.2.2⟩

end ProfilerDatabase
